import Mathlib

/-!
# Verification of the embedded secure-bootloader core

Shallow embedding of the bootloader declared in `src/bootloader/inc/bootloader.h`.
The header declares the protocol and flash constants, the firmware metadata
record `fw_meta_st`, and `program_flash`; the flash driver, transport framer,
update state machine and boot dispatcher are specified in the design document
and are modelled here from that specification.
-/

/-! ## Constants from `bootloader.h` -/

/-- Header constant `IV_LEN` = 16. -/
def IV_LEN : Nat := 16

/-- Header constant `MAX_MSG_LEN` = 256. -/
def MAX_MSG_LEN : Nat := 256

/-- Header constant `FLASH_PAGESIZE` = 1024 (erase granularity, bytes). -/
def FLASH_PAGESIZE : Nat := 1024

/-- Header constant `FLASH_WRITESIZE` = 4 (write granularity, bytes). -/
def FLASH_WRITESIZE : Nat := 4

/-- Header constant `OK` = 0x00, the success status byte. -/
def OK : Nat := 0x00

/-- Header constant `ERROR` = 0x01, the failure status byte. -/
def ERROR : Nat := 0x01

/-- Header constant `UPDATE`, the byte of the command character U. -/
def UPDATE : Nat := 85

/-- Header constant `BOOT`, the byte of the command character B. -/
def BOOT : Nat := 66

/-- Modelled from the spec: the number of flash pages reserved for firmware
storage is not fixed by the header; the spec only requires
`chunk_count ≤ the number of pages reserved for firmware storage`.  Any
positive value works for the claims; we fix a model constant. -/
def FW_REGION_PAGES : Nat := 16

/-- Modelled from the spec: total page count of the writable flash region seen
by the flash driver (a model constant; the header does not fix the geometry
beyond page and word sizes). -/
def FLASH_NUM_PAGES : Nat := 16

/-! ## Firmware metadata (`struct fw_meta_s` from the header) -/

/-- The firmware metadata record `fw_meta_st` from `bootloader.h`:
`uint16_t ver; uint16_t min_ver; uint16_t chunks; uint16_t msgLen;
uint8_t msg[MAX_MSG_LEN];`.  Bytes and 16-bit fields are modelled as `Nat`
with explicit bounds where they matter. -/
structure fw_meta_st where
  ver : Nat
  min_ver : Nat
  chunks : Nat
  msgLen : Nat
  msg : List Nat
deriving DecidableEq, Repr

/-- Declared size, in bytes, of `fw_meta_st` as laid out in the header:
four `uint16_t` fields plus a `uint8_t msg[MAX_MSG_LEN]` array. -/
def fw_meta_size : Nat := 2 + 2 + 2 + 2 + MAX_MSG_LEN

/-! ## Flash driver (modelled from the spec, §4.1)

The header declares `long program_flash(void* page_addr, unsigned char* data,
unsigned int data_len)`; the driver's behaviour is given by the spec:
`erase_page` erases one aligned page, `write` faults on misalignment, on a
length that is not a multiple of the write size, or on a target region not
erased in the current transaction, and partial writes are zero-padded. -/

/-- Flash driver failure: the spec's `FlashFault`. -/
inductive FlashErr where
  | FlashFault
deriving DecidableEq, Repr

/-- Modelled from the spec: the raw flash array together with the set of page
indices erased in the current transaction (the spec's "previously erased in
this transaction"). -/
structure FlashMem where
  bytes : List Nat
  erased : List Nat
deriving DecidableEq, Repr

/-- Store a run of bytes starting at address `a` (out-of-range positions are
ignored by `List.set`). -/
def storeBytes : List Nat → Nat → List Nat → List Nat
  | bs, _, [] => bs
  | bs, a, v :: vs => storeBytes (bs.set a v) (a + 1) vs

/-- Zero-pad (or truncate) `data` to exactly `len` bytes: the spec requires
partial writes to be zero-padded to the write-size boundary. -/
def padTo (data : List Nat) (len : Nat) : List Nat :=
  data.take len ++ List.replicate (len - data.length) 0

/-- The page indices covered by the byte range `[addr, addr+len)`. -/
def pagesTouched (addr len : Nat) : List Nat :=
  if len = 0 then []
  else List.range' (addr / FLASH_PAGESIZE)
    ((addr + len - 1) / FLASH_PAGESIZE + 1 - addr / FLASH_PAGESIZE)

/-- Whether every page covered by `[addr, addr+len)` was erased in the current
transaction. -/
def regionErased (f : FlashMem) (addr len : Nat) : Bool :=
  (pagesTouched addr len).all (fun p => f.erased.contains p)

/-- Modelled from the spec: `erase_page(address)` erases exactly one
1024-byte-aligned page, failing with `FlashFault` if the address is unaligned
or out of the writable region.  Erased bytes read back as `0xFF` and the page
is recorded as erased for the current transaction. -/
def erase_page (f : FlashMem) (addr : Nat) : Except FlashErr FlashMem :=
  if addr % FLASH_PAGESIZE ≠ 0 then .error .FlashFault
  else if FLASH_NUM_PAGES ≤ addr / FLASH_PAGESIZE then .error .FlashFault
  else .ok { bytes := storeBytes f.bytes addr (List.replicate FLASH_PAGESIZE 255),
             erased := addr / FLASH_PAGESIZE :: f.erased }

/-- Modelled from the spec: `write(address, data, length)` — the operation the
header declares as `program_flash` — fails with `FlashFault` if `address` is
not aligned to the write size, if `length` is not a multiple of the write
size, or if the target region was not previously erased in this transaction;
otherwise it stores `data` zero-padded to `length` bytes. -/
def program_flash (f : FlashMem) (addr : Nat) (data : List Nat) (len : Nat) :
    Except FlashErr FlashMem :=
  if addr % FLASH_WRITESIZE ≠ 0 then .error .FlashFault
  else if len % FLASH_WRITESIZE ≠ 0 then .error .FlashFault
  else if regionErased f addr len = false then .error .FlashFault
  else .ok { f with bytes := storeBytes f.bytes addr (padTo data len) }

/-! ## Transport framer (modelled from the spec, §4.2) -/

/-- Transport failures: the spec's `TransportTimeout` and `FrameTooLarge`. -/
inductive TransErr where
  | TransportTimeout
  | FrameTooLarge
deriving DecidableEq, Repr

/-- A protocol frame: one command byte plus a payload. -/
structure Frame where
  cmd : Nat
  payload : List Nat
deriving DecidableEq, Repr

/-- Modelled from the spec: `receive_frame()` blocks until a full frame
arrives or a timeout elapses; it fails with `TransportTimeout` on timeout and
with `FrameTooLarge` when the payload exceeds `MAX_MSG_LEN`; otherwise the
payload passes through byte-exact. -/
def receive_frame (timedOut : Bool) (cmd : Nat) (payload : List Nat) :
    Except TransErr Frame :=
  if timedOut then .error .TransportTimeout
  else if MAX_MSG_LEN < payload.length then .error .FrameTooLarge
  else .ok ⟨cmd, payload⟩

/-! ## Update state machine and boot dispatcher (modelled from the spec, §4.3–§4.4)

The spec's state machine is
`Idle → AwaitMetadata → ValidateVersion → ReceiveChunk(i) → ProgramChunk(i) →
… → Commit → Idle`, with `Aborted` reached from any state on any failure.
Crypto is consumed as an opaque `decrypt_and_verify`; each received encrypted
unit is therefore modelled by its decryption outcome (`none` = verification
failure).  Flash hardware success of a chunk's erase/write/verify cycle is an
input flag.  Per §4.3, "Commit is the single point of truth-switch" and "no
partial firmware is ever left addressable as current": in-flight chunks are
staged in the machine state and become the addressable firmware only at
`Commit`; the commit writes the metadata page (erase, fields, then the
validity marker last), and a power loss during commit leaves the marker
invalid (`TornCommit`). -/

/-- The persistent device state: firmware region pages, the metadata page
content, and the metadata page's trailing validity marker. -/
structure Device where
  fw : List (List Nat)
  meta : fw_meta_st
  marker : Bool
deriving DecidableEq, Repr

/-- Decrypted metadata message: the `fw_meta_st` record plus the debug-build
flag the spec attaches to the image. -/
structure MetaMsg where
  meta : fw_meta_st
  debug : Bool
deriving DecidableEq, Repr

/-- Outcome of the commit operation: completed, or torn by power loss after
the metadata-page erase, or torn after the fields were written but before the
validity marker (the marker is written last). -/
inductive CommitOutcome where
  | completed
  | tornAfterErase
  | tornAfterWrite
deriving DecidableEq, Repr

/-- Events driving the machine: the `UPDATE`/`BOOT` command frames, the
metadata message (by its decryption outcome), a firmware chunk (by its
decryption outcome and the hardware success of its erase/write/verify cycle),
a receive timeout, and the commit operation with its power-loss outcome. -/
inductive Ev where
  | updateCmd
  | bootCmd
  | metaFrame (res : Option MetaMsg)
  | chunkFrame (res : Option (List Nat)) (flashOk : Bool)
  | timeout
  | commitStep (o : CommitOutcome)
deriving DecidableEq, Repr

/-- Control state of the update state machine.  `Transfer tm dbg recvd` covers
the spec's `ReceiveChunk(i)`/`ProgramChunk(i)` loop: `recvd` holds the chunks
already received, decrypted and programmed (staged until `Commit`). -/
inductive Phase where
  | Idle
  | AwaitMetadata
  | Transfer (tm : fw_meta_st) (dbg : Bool) (recvd : List (List Nat))
  | Aborted
deriving DecidableEq, Repr

/-- Response emitted by a step: nothing, a status byte (`OK`/`ERROR`), or a
transfer of control to firmware code. -/
inductive Resp where
  | silent
  | status (b : Nat)
  | launch (code : List (List Nat))
deriving DecidableEq, Repr

/-- Structural validation of decrypted metadata: 16-bit fields in range,
`chunk_count` within the firmware region, `message_length` within
`MAX_MSG_LEN` and consistent with the message. -/
def metaOk (m : fw_meta_st) : Bool :=
  decide (m.ver < 65536) && decide (m.min_ver < 65536) &&
  decide (m.chunks ≤ FW_REGION_PAGES) && decide (m.msgLen ≤ MAX_MSG_LEN) &&
  decide (m.msg.length = m.msgLen)

/-- The metadata record written by `Commit`: the transmitted fields, except
that a debug build never updates `min_ver` (header: "not updated when debug
fw loaded"). -/
def commitMeta (old tm : fw_meta_st) (dbg : Bool) : fw_meta_st :=
  { ver := tm.ver
    min_ver := if dbg then old.min_ver else tm.min_ver
    chunks := tm.chunks
    msgLen := tm.msgLen
    msg := tm.msg }

/-- An erased metadata page: all bytes `0xFF`, no valid fields, marker absent. -/
def erasedMeta : fw_meta_st :=
  { ver := 65535, min_ver := 65535, chunks := 65535, msgLen := 65535,
    msg := List.replicate MAX_MSG_LEN 255 }

/-- Device after a completed commit: the staged chunks become the addressable
firmware, metadata is written and the validity marker set. -/
def commitDev (d : Device) (tm : fw_meta_st) (dbg : Bool)
    (recvd : List (List Nat)) : Device :=
  { fw := recvd ++ d.fw.drop recvd.length
    meta := commitMeta d.meta tm dbg
    marker := true }

/-- Device after a commit torn right after the metadata-page erase: the page
is blank and the marker is absent. -/
def tornEraseDev (d : Device) (recvd : List (List Nat)) : Device :=
  { fw := recvd ++ d.fw.drop recvd.length
    meta := erasedMeta
    marker := false }

/-- Device after a commit torn after the metadata fields were written but
before the trailing validity marker. -/
def tornWriteDev (d : Device) (tm : fw_meta_st) (dbg : Bool)
    (recvd : List (List Nat)) : Device :=
  { fw := recvd ++ d.fw.drop recvd.length
    meta := commitMeta d.meta tm dbg
    marker := false }

/-- Modelled from the spec: the Boot Dispatcher.  On `BOOT` it reads committed
metadata, checks the validity marker and that `chunk_count`/`version` are
within expected bounds; if valid it transfers control to the installed image,
otherwise it reports `ERROR`. -/
def bootDispatch (d : Device) : Resp :=
  if d.marker = true ∧ d.meta.chunks ≤ FW_REGION_PAGES ∧ d.meta.ver < 65536 then
    .launch (d.fw.take d.meta.chunks)
  else .status ERROR

/-- One step of the result: the device, the new control state, and the
response sent on the transport. -/
structure StepRes where
  dev : Device
  phase : Phase
  out : Resp
deriving DecidableEq, Repr

/-- Modelled from the spec: one transition of the update state machine /
boot dispatcher.  Verification failures, version rejection, flash faults and
timeouts abort the transaction with `ERROR`; `OK` is sent only after a
successful `Commit`; a torn commit (power loss) sends nothing and leaves the
validity marker invalid.  Events that do not apply in the current phase are
ignored. -/
def stepEv (d : Device) (ph : Phase) (ev : Ev) : StepRes :=
  match ph, ev with
  | .Idle, .updateCmd => ⟨d, .AwaitMetadata, .silent⟩
  | .Aborted, .updateCmd => ⟨d, .AwaitMetadata, .silent⟩
  | .Idle, .bootCmd => ⟨d, .Idle, bootDispatch d⟩
  | .Aborted, .bootCmd => ⟨d, .Idle, bootDispatch d⟩
  | .AwaitMetadata, .metaFrame none => ⟨d, .Aborted, .status ERROR⟩
  | .AwaitMetadata, .metaFrame (some mm) =>
      if metaOk mm.meta then
        if mm.debug = false ∧ mm.meta.ver < d.meta.min_ver then
          ⟨d, .Aborted, .status ERROR⟩
        else ⟨d, .Transfer mm.meta mm.debug [], .silent⟩
      else ⟨d, .Aborted, .status ERROR⟩
  | .AwaitMetadata, .timeout => ⟨d, .Aborted, .status ERROR⟩
  | .Transfer _ _ _, .timeout => ⟨d, .Aborted, .status ERROR⟩
  | .Transfer _ _ _, .chunkFrame none _ => ⟨d, .Aborted, .status ERROR⟩
  | .Transfer tm dbg recvd, .chunkFrame (some pt) fok =>
      if recvd.length < tm.chunks then
        if fok = true ∧ pt.length ≤ FLASH_PAGESIZE then
          ⟨d, .Transfer tm dbg (recvd ++ [pt]), .silent⟩
        else ⟨d, .Aborted, .status ERROR⟩
      else ⟨d, .Transfer tm dbg recvd, .silent⟩
  | .Transfer tm dbg recvd, .commitStep o =>
      if recvd.length = tm.chunks then
        match o with
        | .completed => ⟨commitDev d tm dbg recvd, .Idle, .status OK⟩
        | .tornAfterErase => ⟨tornEraseDev d recvd, .Aborted, .silent⟩
        | .tornAfterWrite => ⟨tornWriteDev d tm dbg recvd, .Aborted, .silent⟩
      else ⟨d, .Transfer tm dbg recvd, .silent⟩
  | _, _ => ⟨d, ph, .silent⟩

/-- Machine state: device plus control phase. -/
structure MState where
  dev : Device
  phase : Phase
deriving DecidableEq, Repr

/-- Run the machine over a list of events, collecting the responses. -/
def runEvs : MState → List Ev → MState × List Resp
  | m, [] => (m, [])
  | m, ev :: evs =>
      let r := stepEv m.dev m.phase ev
      let p := runEvs ⟨r.dev, r.phase⟩ evs
      (p.1, r.out :: p.2)

/-- The event for one successfully decrypted and programmed chunk. -/
def chunkEv (c : List Nat) : Ev := .chunkFrame (some c) true

/-- The event script of a full `UPDATE` transaction: the `UPDATE` command,
the metadata message, each chunk in order, then the commit. -/
def updateScript (tm : fw_meta_st) (dbg : Bool) (cs : List (List Nat)) :
    List Ev :=
  .updateCmd :: .metaFrame (some ⟨tm, dbg⟩) ::
    (cs.map chunkEv ++ [.commitStep .completed])

/-- The response trace of a successful `UPDATE` transaction: silence until the
commit, then the single `OK`. -/
def okOuts (cs : List (List Nat)) : List Resp :=
  .silent :: .silent :: (List.replicate cs.length .silent ++ [.status OK])

/-- Well-formed device: the firmware region has its full page count. -/
def DevWF (d : Device) : Prop := d.fw.length = FW_REGION_PAGES

/-- Machine invariant: the device is well-formed, and mid-transfer the
accepted metadata is structurally valid with no more chunks staged than
announced. -/
def MInv (m : MState) : Prop :=
  DevWF m.dev ∧
  ∀ tm dbg recvd, m.phase = .Transfer tm dbg recvd →
    metaOk tm = true ∧ recvd.length ≤ tm.chunks

/-- How the persistent device can evolve from `d0`: it is only ever replaced
by the result of a commit of a fully transferred image (marker set), or by a
torn commit (marker invalid).  No other step touches the device. -/
inductive DevEvolve (d0 : Device) : Device → Prop where
  | refl : DevEvolve d0 d0
  | commit : ∀ d tm dbg recvd, DevEvolve d0 d → metaOk tm = true →
      recvd.length = tm.chunks → DevEvolve d0 (commitDev d tm dbg recvd)
  | tornE : ∀ d recvd, DevEvolve d0 d → DevEvolve d0 (tornEraseDev d recvd)
  | tornW : ∀ d tm dbg recvd, DevEvolve d0 d → recvd.length = tm.chunks →
      DevEvolve d0 (tornWriteDev d tm dbg recvd)

/-- A phase inside an `UPDATE` transaction (between the `UPDATE` command and
the commit or abort). -/
def InTxn (ph : Phase) : Prop :=
  ph = .AwaitMetadata ∨ ∃ tm dbg recvd, ph = .Transfer tm dbg recvd

/-! ## Theorems -/

/-- Auxiliary: `storeBytes` never changes the length of the flash array. -/
theorem storeBytes_length (vs : List Nat) : ∀ (bs : List Nat) (a : Nat),
    (storeBytes bs a vs).length = bs.length := by
  induction vs with
  | nil => intro bs a; rfl
  | cons v vs ih =>
      intro bs a
      simp [storeBytes, ih, List.length_set]

/-- Auxiliary: `storeBytes` leaves positions below the start address alone. -/
theorem storeBytes_getD_lt (vs : List Nat) : ∀ (bs : List Nat) (a i : Nat),
    i < a → (storeBytes bs a vs).getD i 0 = bs.getD i 0 := by
  induction vs with
  | nil => intro bs a i _; rfl
  | cons v vs ih =>
      intro bs a i hi
      rw [storeBytes, ih _ _ _ (Nat.lt_succ_of_lt hi)]
      simp [List.getD]
      rw [List.getElem?_set_ne (by omega)]

/-- Auxiliary: reading back a byte stored by `storeBytes`. -/
theorem storeBytes_getD (vs : List Nat) : ∀ (bs : List Nat) (a j : Nat),
    j < vs.length → a + vs.length ≤ bs.length →
    (storeBytes bs a vs).getD (a + j) 0 = vs.getD j 0 := by
  induction vs with
  | nil => intro bs a j hj _; exact absurd hj (by simp)
  | cons v vs ih =>
      intro bs a j hj hle
      match j with
      | 0 =>
          rw [storeBytes, storeBytes_getD_lt vs _ _ _ (by omega)]
          simp [List.getD]
          rw [List.getElem?_set_self (by simp at hle ⊢; omega)]
          rfl
      | k + 1 =>
          have h1 : a + (k + 1) = (a + 1) + k := by omega
          rw [storeBytes, h1, ih _ _ _ (by simpa using hj) (by simp at hle ⊢; omega)]
          simp [List.getD]

set_option maxRecDepth 8192

/-- C7: `program_flash` (the spec's `write`) fails with `FlashFault` exactly
when a precondition is violated — address unaligned to the 4-byte write size,
length not a multiple of the write size, or target region not erased in the
current transaction; a successful write touches only pages already erased in
this transaction; and `erase_page` erases the page fully (every byte of the
page reads back erased). -/
theorem program_flash_fault_iff (f : FlashMem) (addr : Nat) (data : List Nat)
    (len : Nat) (hf : f.bytes.length = FLASH_NUM_PAGES * FLASH_PAGESIZE) :
    (program_flash f addr data len = .error .FlashFault ↔
      ¬(addr % FLASH_WRITESIZE = 0 ∧ len % FLASH_WRITESIZE = 0 ∧
        regionErased f addr len = true)) ∧
    (∀ f', program_flash f addr data len = .ok f' →
      ∀ p ∈ pagesTouched addr len, f.erased.contains p = true) ∧
    (∀ f', erase_page f addr = .ok f' →
      ∀ j, j < FLASH_PAGESIZE → f'.bytes.getD (addr + j) 0 = 255) := by
  refine ⟨?_, ?_, ?_⟩
  · unfold program_flash
    split_ifs with h1 h2 h3 <;> simp_all
  · intro f' hok p hp
    unfold program_flash at hok
    split_ifs at hok with h1 h2 h3
    have h4 : regionErased f addr len = true := by
      cases hr : regionErased f addr len
      · exact absurd hr h3
      · rfl
    have h5 := List.all_eq_true.mp h4 p hp
    simpa using h5
  · intro f' hok j hj
    unfold erase_page at hok
    split_ifs at hok with h1 h2
    injection hok with h
    subst h
    have h1' : addr % FLASH_PAGESIZE = 0 := by omega
    have h2' : addr / FLASH_PAGESIZE < FLASH_NUM_PAGES := by omega
    have hle : addr + FLASH_PAGESIZE ≤ f.bytes.length := by
      rw [hf]
      unfold FLASH_PAGESIZE at h1'
      unfold FLASH_PAGESIZE FLASH_NUM_PAGES at h2'
      unfold FLASH_PAGESIZE FLASH_NUM_PAGES
      omega
    rw [storeBytes_getD _ _ _ _ (by simpa using hj) (by simpa using hle)]
    simp [List.getD, List.getElem?_replicate, hj]

/-- Witness for C7: on a fresh 16-page flash, a write to the unaligned
address 2 faults. -/
theorem program_flash_fault_iff_wit :
    program_flash ⟨List.replicate (FLASH_NUM_PAGES * FLASH_PAGESIZE) 0, []⟩
        2 [] 4 = .error .FlashFault :=
  (program_flash_fault_iff ⟨List.replicate (FLASH_NUM_PAGES * FLASH_PAGESIZE) 0, []⟩
      2 [] 4 (by simp)).1.mpr (by decide)

/-- C8: a frame payload of exactly `MAX_MSG_LEN` (256) bytes is accepted by
`receive_frame`, and any payload of `MAX_MSG_LEN + 1` bytes or more is
rejected with `FrameTooLarge`. -/
theorem receive_frame_boundary (cmd : Nat) (payload : List Nat) :
    (payload.length = MAX_MSG_LEN →
      receive_frame false cmd payload = .ok ⟨cmd, payload⟩) ∧
    (MAX_MSG_LEN + 1 ≤ payload.length →
      receive_frame false cmd payload = .error .FrameTooLarge) := by
  constructor
  · intro h
    unfold receive_frame
    rw [if_neg (by simp), if_neg (by omega)]
  · intro h
    unfold receive_frame
    rw [if_neg (by simp), if_pos (by omega)]

/-- Witness for C8: a 256-byte payload is accepted, a 257-byte payload is
rejected as `FrameTooLarge`. -/
theorem receive_frame_boundary_wit :
    receive_frame false UPDATE (List.replicate MAX_MSG_LEN 0) =
        .ok ⟨UPDATE, List.replicate MAX_MSG_LEN 0⟩ ∧
    receive_frame false UPDATE (List.replicate (MAX_MSG_LEN + 1) 0) =
        .error .FrameTooLarge :=
  ⟨(receive_frame_boundary UPDATE (List.replicate MAX_MSG_LEN 0)).1 (by simp),
   (receive_frame_boundary UPDATE (List.replicate (MAX_MSG_LEN + 1) 0)).2 (by simp)⟩

/-- C10: the declared `fw_meta_st` layout occupies 2+2+2+2+256 = 264 bytes,
strictly less than one `FLASH_PAGESIZE` (1024) erase page, with room left for
a trailing validity marker word — so a single-page atomic metadata commit is
representable. -/
theorem fw_meta_fits_in_one_page :
    fw_meta_size = 264 ∧ fw_meta_size < FLASH_PAGESIZE ∧
    fw_meta_size + FLASH_WRITESIZE ≤ FLASH_PAGESIZE := by decide

/-- Auxiliary: the boot dispatcher never answers with the `OK` status byte —
it either launches firmware or reports `ERROR`. -/
theorem bootDispatch_ne_okStatus (d : Device) : bootDispatch d ≠ .status OK := by
  unfold bootDispatch
  split_ifs
  · simp
  · simp [ERROR, OK]

/-- C4: in any step of the machine, the `OK` (0x00) status byte is emitted
iff that step is a successfully completed `Commit` of a fully transferred
image; and inside an `UPDATE` transaction every `ERROR` (0x01) response
aborts the transaction (no automatic retry: the machine lands in `Aborted`
and waits for a fresh `UPDATE`) and leaves the device — hence the previously
committed firmware and its bootability — unchanged. -/
theorem ok_iff_commit_and_errors_abort (d : Device) (ph : Phase) (ev : Ev) :
    ((stepEv d ph ev).out = .status OK ↔
      ∃ tm dbg recvd, ph = .Transfer tm dbg recvd ∧
        recvd.length = tm.chunks ∧ ev = .commitStep .completed) ∧
    (InTxn ph → (stepEv d ph ev).out = .status ERROR →
      (stepEv d ph ev).phase = .Aborted ∧ (stepEv d ph ev).dev = d) := by
  constructor
  · cases ph with
    | Idle =>
        cases ev with
        | updateCmd => simp [stepEv]
        | bootCmd => simp [stepEv, bootDispatch_ne_okStatus]
        | metaFrame res => cases res <;> simp [stepEv]
        | chunkFrame res fok => cases res <;> simp [stepEv]
        | timeout => simp [stepEv]
        | commitStep o => cases o <;> simp [stepEv]
    | AwaitMetadata =>
        cases ev with
        | updateCmd => simp [stepEv]
        | bootCmd => simp [stepEv]
        | metaFrame res =>
            cases res with
            | none => simp [stepEv, OK, ERROR]
            | some mm =>
                simp only [stepEv]
                split_ifs <;> simp [OK, ERROR]
        | chunkFrame res fok => cases res <;> simp [stepEv]
        | timeout => simp [stepEv, OK, ERROR]
        | commitStep o => cases o <;> simp [stepEv]
    | Transfer tm dbg recvd =>
        cases ev with
        | updateCmd => simp [stepEv]
        | bootCmd => simp [stepEv]
        | metaFrame res => cases res <;> simp [stepEv]
        | chunkFrame res fok =>
            cases res with
            | none => simp [stepEv, OK, ERROR]
            | some pt =>
                simp only [stepEv]
                split_ifs <;> simp [OK, ERROR]
        | timeout => simp [stepEv, OK, ERROR]
        | commitStep o =>
            cases o with
            | completed =>
                simp only [stepEv]
                split_ifs with h
                · exact ⟨fun _ => ⟨tm, dbg, recvd, rfl, h, by simp⟩, fun _ => by simp⟩
                · constructor
                  · intro hc
                    exact absurd hc (by simp)
                  · rintro ⟨tm1, dbg1, recvd1, heq, hlen, -⟩
                    injection heq with e1 e2 e3
                    subst e1
                    subst e3
                    exact absurd hlen h
            | tornAfterErase =>
                simp only [stepEv]
                split_ifs <;> simp
            | tornAfterWrite =>
                simp only [stepEv]
                split_ifs <;> simp
    | Aborted =>
        cases ev with
        | updateCmd => simp [stepEv]
        | bootCmd => simp [stepEv, bootDispatch_ne_okStatus]
        | metaFrame res => cases res <;> simp [stepEv]
        | chunkFrame res fok => cases res <;> simp [stepEv]
        | timeout => simp [stepEv]
        | commitStep o => cases o <;> simp [stepEv]
  · intro htxn herr
    cases ph with
    | Idle => simp [InTxn] at htxn
    | AwaitMetadata =>
        cases ev with
        | updateCmd => simp [stepEv] at herr
        | bootCmd => simp [stepEv] at herr
        | metaFrame res =>
            cases res with
            | none => simp [stepEv]
            | some mm =>
                simp only [stepEv] at herr ⊢
                split_ifs at herr ⊢ <;> simp_all
        | chunkFrame res fok => cases res <;> simp [stepEv] at herr
        | timeout => simp [stepEv]
        | commitStep o => cases o <;> simp [stepEv] at herr
    | Transfer tm dbg recvd =>
        cases ev with
        | updateCmd => simp [stepEv] at herr
        | bootCmd => simp [stepEv] at herr
        | metaFrame res => cases res <;> simp [stepEv] at herr
        | chunkFrame res fok =>
            cases res with
            | none => simp [stepEv]
            | some pt =>
                simp only [stepEv] at herr ⊢
                split_ifs at herr ⊢ <;> simp_all
        | timeout => simp [stepEv]
        | commitStep o =>
            cases o with
            | completed =>
                simp only [stepEv] at herr
                split_ifs at herr <;> simp_all [OK, ERROR]
            | tornAfterErase =>
                simp only [stepEv] at herr
                split_ifs at herr <;> simp_all
            | tornAfterWrite =>
                simp only [stepEv] at herr
                split_ifs at herr <;> simp_all
    | Aborted =>
        rcases htxn with h | ⟨tm, dbg, recvd, h⟩ <;> exact absurd h (by simp)

/-- Witness for C4: with a two-page image fully staged, the completed commit
answers `OK`; and (via the second conjunct) a metadata verification failure
answers `ERROR`, aborts, and leaves the device untouched. -/
theorem ok_iff_commit_and_errors_abort_wit :
    (stepEv ⟨[], ⟨0, 0, 0, 0, []⟩, true⟩
        (.Transfer ⟨1, 1, 2, 0, []⟩ false [[1], [2]]) (.commitStep .completed)).out =
      .status OK ∧
    (stepEv ⟨[], ⟨0, 0, 0, 0, []⟩, true⟩ .AwaitMetadata (.metaFrame none)).phase =
      .Aborted :=
  ⟨(ok_iff_commit_and_errors_abort ⟨[], ⟨0, 0, 0, 0, []⟩, true⟩
      (.Transfer ⟨1, 1, 2, 0, []⟩ false [[1], [2]]) (.commitStep .completed)).1.mpr
      ⟨⟨1, 1, 2, 0, []⟩, false, [[1], [2]], rfl, by decide, rfl⟩,
   ((ok_iff_commit_and_errors_abort ⟨[], ⟨0, 0, 0, 0, []⟩, true⟩
      .AwaitMetadata (.metaFrame none)).2 (Or.inl rfl) (by decide)).1⟩

/-- C5: the persistent device — committed `version`, `min_version`, the rest
of the metadata, and the firmware code — is changed by a step only when that
step is the `Commit` of a fully transferred image (all announced chunks
staged); in particular no mid-transfer state updates `version` or
`min_version` separately, and every step that reports `ERROR` (a failed
update) leaves the previously committed metadata and code intact. -/
theorem meta_committed_atomically (d : Device) (ph : Phase) (ev : Ev) :
    ((stepEv d ph ev).dev ≠ d →
      ∃ o tm dbg recvd, ev = .commitStep o ∧ ph = .Transfer tm dbg recvd ∧
        recvd.length = tm.chunks) ∧
    ((stepEv d ph ev).out = .status ERROR → (stepEv d ph ev).dev = d) := by
  constructor
  · intro hne
    cases ph with
    | Idle =>
        cases ev with
        | metaFrame res => cases res <;> simp [stepEv] at hne
        | chunkFrame res fok => cases res <;> simp [stepEv] at hne
        | commitStep o => cases o <;> simp [stepEv] at hne
        | _ => simp [stepEv] at hne
    | AwaitMetadata =>
        cases ev with
        | metaFrame res =>
            cases res with
            | none => simp [stepEv] at hne
            | some mm =>
                simp only [stepEv] at hne
                split_ifs at hne <;> simp_all
        | chunkFrame res fok => cases res <;> simp [stepEv] at hne
        | commitStep o => cases o <;> simp [stepEv] at hne
        | _ => simp [stepEv] at hne
    | Transfer tm dbg recvd =>
        cases ev with
        | metaFrame res => cases res <;> simp [stepEv] at hne
        | chunkFrame res fok =>
            cases res with
            | none => simp [stepEv] at hne
            | some pt =>
                simp only [stepEv] at hne
                split_ifs at hne <;> simp_all
        | commitStep o =>
            cases o with
            | completed =>
                simp only [stepEv] at hne
                split_ifs at hne with h
                · exact ⟨.completed, tm, dbg, recvd, rfl, rfl, h⟩
                · simp at hne
            | tornAfterErase =>
                simp only [stepEv] at hne
                split_ifs at hne with h
                · exact ⟨.tornAfterErase, tm, dbg, recvd, rfl, rfl, h⟩
                · simp at hne
            | tornAfterWrite =>
                simp only [stepEv] at hne
                split_ifs at hne with h
                · exact ⟨.tornAfterWrite, tm, dbg, recvd, rfl, rfl, h⟩
                · simp at hne
        | _ => simp [stepEv] at hne
    | Aborted =>
        cases ev with
        | metaFrame res => cases res <;> simp [stepEv] at hne
        | chunkFrame res fok => cases res <;> simp [stepEv] at hne
        | commitStep o => cases o <;> simp [stepEv] at hne
        | _ => simp [stepEv] at hne
  · intro herr
    cases ph with
    | Idle =>
        cases ev with
        | metaFrame res => cases res <;> simp [stepEv]
        | chunkFrame res fok => cases res <;> simp [stepEv]
        | commitStep o => cases o <;> simp [stepEv]
        | _ => simp [stepEv]
    | AwaitMetadata =>
        cases ev with
        | metaFrame res =>
            cases res with
            | none => simp [stepEv]
            | some mm =>
                simp only [stepEv] at herr ⊢
                split_ifs at herr ⊢ <;> simp_all
        | chunkFrame res fok => cases res <;> simp [stepEv]
        | commitStep o => cases o <;> simp [stepEv]
        | _ => simp [stepEv]
    | Transfer tm dbg recvd =>
        cases ev with
        | metaFrame res => cases res <;> simp [stepEv]
        | chunkFrame res fok =>
            cases res with
            | none => simp [stepEv]
            | some pt =>
                simp only [stepEv] at herr ⊢
                split_ifs at herr ⊢ <;> simp_all
        | commitStep o =>
            cases o with
            | completed =>
                simp only [stepEv] at herr
                split_ifs at herr <;> simp_all [OK, ERROR]
            | tornAfterErase =>
                simp only [stepEv] at herr
                split_ifs at herr <;> simp_all
            | tornAfterWrite =>
                simp only [stepEv] at herr
                split_ifs at herr <;> simp_all
        | _ => simp [stepEv]
    | Aborted =>
        cases ev with
        | metaFrame res => cases res <;> simp [stepEv]
        | chunkFrame res fok => cases res <;> simp [stepEv]
        | commitStep o => cases o <;> simp [stepEv]
        | _ => simp [stepEv]

/-- Witness for C5: a chunk-stage verification failure reports `ERROR` and
leaves the device exactly as it was. -/
theorem meta_committed_atomically_wit :
    (stepEv ⟨[[7]], ⟨3, 1, 1, 0, []⟩, true⟩
        (.Transfer ⟨4, 2, 1, 0, []⟩ false []) (.chunkFrame none true)).dev =
      ⟨[[7]], ⟨3, 1, 1, 0, []⟩, true⟩ :=
  (meta_committed_atomically ⟨[[7]], ⟨3, 1, 1, 0, []⟩, true⟩
      (.Transfer ⟨4, 2, 1, 0, []⟩ false []) (.chunkFrame none true)).2 (by decide)

/-- Auxiliary: unpacking the structural metadata validation. -/
theorem metaOk_spec (m : fw_meta_st) (h : metaOk m = true) :
    m.ver < 65536 ∧ m.min_ver < 65536 ∧ m.chunks ≤ FW_REGION_PAGES ∧
    m.msgLen ≤ MAX_MSG_LEN ∧ m.msg.length = m.msgLen := by
  have h2 := h
  simp [metaOk] at h2
  tauto

/-- Auxiliary: committing a staged image no longer than the firmware region
preserves the region's page count. -/
theorem commit_fw_length (d : Device) (recvd : List (List Nat))
    (h1 : d.fw.length = FW_REGION_PAGES)
    (h2 : recvd.length ≤ FW_REGION_PAGES) :
    (recvd ++ d.fw.drop recvd.length).length = FW_REGION_PAGES := by
  simp [List.length_append, List.length_drop, h1]
  omega

/-- Auxiliary: every step preserves the machine invariant `MInv`. -/
theorem minv_step (d : Device) (ph : Phase) (ev : Ev) (h : MInv ⟨d, ph⟩) :
    MInv ⟨(stepEv d ph ev).dev, (stepEv d ph ev).phase⟩ := by
  obtain ⟨hwf, htr⟩ := h
  cases ph with
  | Idle =>
      cases ev with
      | metaFrame res => cases res <;> exact ⟨hwf, by simp [stepEv]⟩
      | chunkFrame res fok => cases res <;> exact ⟨hwf, by simp [stepEv]⟩
      | commitStep o => cases o <;> exact ⟨hwf, by simp [stepEv]⟩
      | _ => exact ⟨hwf, by simp [stepEv]⟩
  | AwaitMetadata =>
      cases ev with
      | metaFrame res =>
          cases res with
          | none => exact ⟨hwf, by simp [stepEv]⟩
          | some mm =>
              simp only [stepEv]
              split_ifs with h1 h2
              · exact ⟨hwf, by simp⟩
              · refine ⟨hwf, ?_⟩
                intro tm dbg recvd heq
                injection heq with e1 e2 e3
                subst e1
                subst e3
                exact ⟨h1, by simp⟩
              · exact ⟨hwf, by simp⟩
      | chunkFrame res fok => cases res <;> exact ⟨hwf, by simp [stepEv]⟩
      | commitStep o => cases o <;> exact ⟨hwf, by simp [stepEv]⟩
      | _ => exact ⟨hwf, by simp [stepEv]⟩
  | Transfer tm dbg recvd =>
      obtain ⟨hok, hle⟩ := htr tm dbg recvd rfl
      cases ev with
      | updateCmd => exact ⟨hwf, fun tm1 dbg1 recvd1 heq => htr tm1 dbg1 recvd1 heq⟩
      | bootCmd => exact ⟨hwf, fun tm1 dbg1 recvd1 heq => htr tm1 dbg1 recvd1 heq⟩
      | timeout => exact ⟨hwf, by simp [stepEv]⟩
      | metaFrame res =>
          cases res <;>
            exact ⟨hwf, fun tm1 dbg1 recvd1 heq => htr tm1 dbg1 recvd1 heq⟩
      | chunkFrame res fok =>
          cases res with
          | none => exact ⟨hwf, by simp [stepEv]⟩
          | some pt =>
              simp only [stepEv]
              split_ifs with h1 h2
              · refine ⟨hwf, ?_⟩
                intro tm1 dbg1 recvd1 heq
                injection heq with e1 e2 e3
                subst e1
                subst e3
                refine ⟨hok, ?_⟩
                simp
                omega
              · exact ⟨hwf, by simp⟩
              · exact ⟨hwf, fun tm1 dbg1 recvd1 heq => htr tm1 dbg1 recvd1 heq⟩
      | commitStep o =>
          have hch : tm.chunks ≤ FW_REGION_PAGES := (metaOk_spec tm hok).2.2.1
          cases o with
          | completed =>
              simp only [stepEv]
              split_ifs with h1
              · exact ⟨commit_fw_length d recvd hwf (by omega), by simp⟩
              · exact ⟨hwf, fun tm1 dbg1 recvd1 heq => htr tm1 dbg1 recvd1 heq⟩
          | tornAfterErase =>
              simp only [stepEv]
              split_ifs with h1
              · exact ⟨commit_fw_length d recvd hwf (by omega), by simp⟩
              · exact ⟨hwf, fun tm1 dbg1 recvd1 heq => htr tm1 dbg1 recvd1 heq⟩
          | tornAfterWrite =>
              simp only [stepEv]
              split_ifs with h1
              · exact ⟨commit_fw_length d recvd hwf (by omega), by simp⟩
              · exact ⟨hwf, fun tm1 dbg1 recvd1 heq => htr tm1 dbg1 recvd1 heq⟩
  | Aborted =>
      cases ev with
      | metaFrame res => cases res <;> exact ⟨hwf, by simp [stepEv]⟩
      | chunkFrame res fok => cases res <;> exact ⟨hwf, by simp [stepEv]⟩
      | commitStep o => cases o <;> exact ⟨hwf, by simp [stepEv]⟩
      | _ => exact ⟨hwf, by simp [stepEv]⟩

/-- Auxiliary: every step keeps the device within the commit-or-torn
evolution relation. -/
theorem devEvolve_step (d0 d : Device) (ph : Phase) (ev : Ev)
    (h : MInv ⟨d, ph⟩) (he : DevEvolve d0 d) :
    DevEvolve d0 (stepEv d ph ev).dev := by
  obtain ⟨hwf, htr⟩ := h
  cases ph with
  | Idle =>
      cases ev with
      | metaFrame res => cases res <;> exact he
      | chunkFrame res fok => cases res <;> exact he
      | commitStep o => cases o <;> exact he
      | _ => exact he
  | AwaitMetadata =>
      cases ev with
      | metaFrame res =>
          cases res with
          | none => exact he
          | some mm =>
              simp only [stepEv]
              split_ifs <;> exact he
      | chunkFrame res fok => cases res <;> exact he
      | commitStep o => cases o <;> exact he
      | _ => exact he
  | Transfer tm dbg recvd =>
      obtain ⟨hok, hle⟩ := htr tm dbg recvd rfl
      cases ev with
      | chunkFrame res fok =>
          cases res with
          | none => exact he
          | some pt =>
              simp only [stepEv]
              split_ifs <;> exact he
      | commitStep o =>
          cases o with
          | completed =>
              simp only [stepEv]
              split_ifs with h1
              · exact DevEvolve.commit d tm dbg recvd he hok h1
              · exact he
          | tornAfterErase =>
              simp only [stepEv]
              split_ifs with h1
              · exact DevEvolve.tornE d recvd he
              · exact he
          | tornAfterWrite =>
              simp only [stepEv]
              split_ifs with h1
              · exact DevEvolve.tornW d tm dbg recvd he h1
              · exact he
      | metaFrame res => cases res <;> exact he
      | _ => exact he
  | Aborted =>
      cases ev with
      | metaFrame res => cases res <;> exact he
      | chunkFrame res fok => cases res <;> exact he
      | commitStep o => cases o <;> exact he
      | _ => exact he

/-- Auxiliary: running any event list preserves `MInv` and keeps the device
within the commit-or-torn evolution relation. -/
theorem runEvs_preserves (d0 : Device) (evs : List Ev) : ∀ (m : MState),
    MInv m → DevEvolve d0 m.dev →
    MInv (runEvs m evs).1 ∧ DevEvolve d0 (runEvs m evs).1.dev := by
  induction evs with
  | nil => intro m h1 h2; exact ⟨h1, h2⟩
  | cons ev evs ih =>
      intro m h1 h2
      simp only [runEvs]
      exact ih ⟨(stepEv m.dev m.phase ev).dev, (stepEv m.dev m.phase ev).phase⟩
        (minv_step m.dev m.phase ev h1) (devEvolve_step d0 m.dev m.phase ev h1 h2)

/-- C1: starting from any well-formed device, after any sequence of
update-transaction steps — in particular any ending in an error
(verification failure, flash fault, timeout, or torn commit, all of which
land in `Aborted`) — the Boot Dispatcher never transfers control to
partially-written code: if the committed metadata's validity marker is
invalid (torn commit), `BOOT` answers `ERROR` and the machine remains in the
bootloader; whenever the dispatcher does launch, the launched image consists
of exactly `chunk_count` complete pages; and the device is only ever the
original one or the result of a commit of a fully transferred image (a torn
commit leaving the marker invalid). -/
theorem boot_refuses_partial_or_torn (d0 : Device) (h0 : DevWF d0)
    (evs : List Ev) :
    ((runEvs ⟨d0, .Idle⟩ evs).1.phase = .Aborted →
      (runEvs ⟨d0, .Idle⟩ evs).1.dev.marker = false →
      stepEv (runEvs ⟨d0, .Idle⟩ evs).1.dev (runEvs ⟨d0, .Idle⟩ evs).1.phase
          .bootCmd =
        ⟨(runEvs ⟨d0, .Idle⟩ evs).1.dev, .Idle, .status ERROR⟩) ∧
    (∀ c, bootDispatch (runEvs ⟨d0, .Idle⟩ evs).1.dev = .launch c →
      c.length = (runEvs ⟨d0, .Idle⟩ evs).1.dev.meta.chunks) ∧
    DevEvolve d0 (runEvs ⟨d0, .Idle⟩ evs).1.dev := by
  obtain ⟨hinv, hev⟩ := runEvs_preserves d0 evs ⟨d0, .Idle⟩
    ⟨h0, by intro tm dbg recvd h; exact absurd h (by simp)⟩ DevEvolve.refl
  refine ⟨?_, ?_, hev⟩
  · intro hab hmk
    rw [hab]
    simp only [stepEv]
    unfold bootDispatch
    rw [if_neg (by simp [hmk])]
  · intro c hc
    unfold bootDispatch at hc
    split_ifs at hc with hcond
    injection hc with h
    subst h
    have hfw : (runEvs ⟨d0, .Idle⟩ evs).1.dev.fw.length = FW_REGION_PAGES :=
      hinv.1
    simp [List.length_take, hfw]
    omega

/-- Witness for C1: a zero-chunk update whose commit is torn by power loss
right after the metadata-page erase leaves the marker invalid, and `BOOT`
then answers `ERROR` and stays in the bootloader. -/
theorem boot_refuses_partial_or_torn_wit :
    stepEv
        (runEvs ⟨⟨List.replicate FW_REGION_PAGES [], ⟨1, 1, 0, 0, []⟩, true⟩, .Idle⟩
          [.updateCmd, .metaFrame (some ⟨⟨1, 1, 0, 0, []⟩, false⟩),
           .commitStep .tornAfterErase]).1.dev
        (runEvs ⟨⟨List.replicate FW_REGION_PAGES [], ⟨1, 1, 0, 0, []⟩, true⟩, .Idle⟩
          [.updateCmd, .metaFrame (some ⟨⟨1, 1, 0, 0, []⟩, false⟩),
           .commitStep .tornAfterErase]).1.phase .bootCmd =
      ⟨(runEvs ⟨⟨List.replicate FW_REGION_PAGES [], ⟨1, 1, 0, 0, []⟩, true⟩, .Idle⟩
          [.updateCmd, .metaFrame (some ⟨⟨1, 1, 0, 0, []⟩, false⟩),
           .commitStep .tornAfterErase]).1.dev, .Idle, .status ERROR⟩ :=
  (boot_refuses_partial_or_torn
      ⟨List.replicate FW_REGION_PAGES [], ⟨1, 1, 0, 0, []⟩, true⟩
      (by simp [DevWF])
      [.updateCmd, .metaFrame (some ⟨⟨1, 1, 0, 0, []⟩, false⟩),
       .commitStep .tornAfterErase]).1 (by decide) (by decide)

/-- C2: an update whose decrypted metadata carries `version` strictly below
the committed `min_version` and is not flagged debug is rejected at the
version-validation step: the transaction aborts with `ERROR` before any
flash operation, and the whole device — firmware region and metadata page —
is exactly its pre-transaction state. -/
theorem rollback_rejected_before_flash (d : Device) (tm : fw_meta_st)
    (hlt : tm.ver < d.meta.min_ver) :
    runEvs ⟨d, .Idle⟩ [.updateCmd, .metaFrame (some ⟨tm, false⟩)] =
      (⟨d, .Aborted⟩, [.silent, .status ERROR]) := by
  by_cases h : metaOk tm = true
  · simp [runEvs, stepEv, h, hlt]
  · simp [runEvs, stepEv, h]

/-- Witness for C2: a device with floor `min_version = 5` rejects a
non-debug image with `version = 2`, leaving the device untouched. -/
theorem rollback_rejected_before_flash_wit :
    runEvs ⟨⟨[[9]], ⟨5, 5, 1, 0, []⟩, true⟩, .Idle⟩
        [.updateCmd, .metaFrame (some ⟨⟨2, 2, 1, 0, []⟩, false⟩)] =
      (⟨⟨[[9]], ⟨5, 5, 1, 0, []⟩, true⟩, .Aborted⟩, [.silent, .status ERROR]) :=
  rollback_rejected_before_flash ⟨[[9]], ⟨5, 5, 1, 0, []⟩, true⟩
    ⟨2, 2, 1, 0, []⟩ (by decide)

/-- Auxiliary: a run of in-bounds, successfully decrypted and programmed
chunk frames stages them in order, emitting no response. -/
theorem runEvs_chunks (d : Device) (tm : fw_meta_st) (dbg : Bool)
    (cs : List (List Nat)) : ∀ (recvd : List (List Nat)) (rest : List Ev),
    (∀ c ∈ cs, c.length ≤ FLASH_PAGESIZE) →
    recvd.length + cs.length ≤ tm.chunks →
    runEvs ⟨d, .Transfer tm dbg recvd⟩ (cs.map chunkEv ++ rest) =
      ((runEvs ⟨d, .Transfer tm dbg (recvd ++ cs)⟩ rest).1,
       List.replicate cs.length .silent ++
         (runEvs ⟨d, .Transfer tm dbg (recvd ++ cs)⟩ rest).2) := by
  induction cs with
  | nil => intro recvd rest _ _; simp
  | cons c cs ih =>
      intro recvd rest hsz hlen
      have hstep : stepEv d (.Transfer tm dbg recvd) (chunkEv c) =
          ⟨d, .Transfer tm dbg (recvd ++ [c]), .silent⟩ := by
        simp only [chunkEv, stepEv]
        rw [if_pos (by simp at hlen; omega)]
        rw [if_pos ⟨by trivial, hsz c (by simp)⟩]
      simp only [List.map_cons, List.cons_append, runEvs, hstep]
      simp only [List.append_eq]
      rw [ih (recvd ++ [c]) rest (fun c1 hc1 => hsz c1 (by simp [hc1]))
        (by simp at hlen ⊢; omega)]
      simp [List.replicate_succ]

/-- Auxiliary: the full event script of an `UPDATE` transaction with valid
metadata, a version that passes (or a debug flag that bypasses) the
anti-rollback gate, and all chunks decrypting and programming successfully,
runs to a completed commit: the machine returns to `Idle`, the staged image
and metadata are committed, and the sole status byte emitted is the final
`OK`. -/
theorem runEvs_updateScript (d : Device) (tm : fw_meta_st) (dbg : Bool)
    (cs : List (List Nat)) (hs : metaOk tm = true)
    (hn : cs.length = tm.chunks)
    (hsz : ∀ c ∈ cs, c.length ≤ FLASH_PAGESIZE)
    (hv : dbg = false → ¬tm.ver < d.meta.min_ver) :
    runEvs ⟨d, .Idle⟩ (updateScript tm dbg cs) =
      (⟨commitDev d tm dbg cs, .Idle⟩, okOuts cs) := by
  have h2 : stepEv d .AwaitMetadata (.metaFrame (some ⟨tm, dbg⟩)) =
      ⟨d, .Transfer tm dbg [], .silent⟩ := by
    simp only [stepEv]
    rw [if_pos hs, if_neg]
    rintro ⟨hd, hlt⟩
    exact hv hd hlt
  have h3 : stepEv d (.Transfer tm dbg cs) (.commitStep .completed) =
      ⟨commitDev d tm dbg cs, .Idle, .status OK⟩ := by
    simp only [stepEv]
    rw [if_pos hn]
  have h1 : stepEv d .Idle .updateCmd = ⟨d, .AwaitMetadata, .silent⟩ := rfl
  have h4 := runEvs_chunks d tm dbg cs [] [.commitStep .completed] hsz
    (by simp [hn])
  simp only [List.nil_append] at h4
  simp only [updateScript, runEvs, h1, h2]
  rw [h4]
  simp [runEvs, h3, okOuts]

/-- C3: for every valid image — structurally valid metadata, every chunk
decrypting, authenticating and programming successfully, and a version
passing the anti-rollback gate (the non-debug check `min_version ≤ version`)
— the `UPDATE` transaction completes with `OK`, a subsequent `BOOT` launches
exactly the transmitted plaintext chunks, and the committed `version` and
`min_version` equal the transmitted values. -/
theorem valid_update_commits_and_boots (d : Device) (tm : fw_meta_st)
    (cs : List (List Nat)) (hs : metaOk tm = true)
    (hn : cs.length = tm.chunks)
    (hsz : ∀ c ∈ cs, c.length ≤ FLASH_PAGESIZE)
    (hv : d.meta.min_ver ≤ tm.ver) :
    runEvs ⟨d, .Idle⟩ (updateScript tm false cs) =
      (⟨commitDev d tm false cs, .Idle⟩, okOuts cs) ∧
    bootDispatch (commitDev d tm false cs) = .launch cs ∧
    (commitDev d tm false cs).meta.ver = tm.ver ∧
    (commitDev d tm false cs).meta.min_ver = tm.min_ver := by
  have hm := metaOk_spec tm hs
  refine ⟨runEvs_updateScript d tm false cs hs hn hsz (fun _ => by omega),
    ?_, rfl, rfl⟩
  unfold bootDispatch
  rw [if_pos ⟨rfl, hm.2.2.1, hm.1⟩]
  show Resp.launch ((cs ++ d.fw.drop cs.length).take tm.chunks) = .launch cs
  rw [← hn, List.take_left]

/-- Witness for C3: a fresh device accepts a two-chunk image
`{version = 5, min_version = 3}`; the commit answers `OK` and `BOOT`
launches the two transmitted chunks. -/
theorem valid_update_commits_and_boots_wit :
    runEvs ⟨⟨[[], []], ⟨1, 1, 2, 0, []⟩, true⟩, .Idle⟩
        (updateScript ⟨5, 3, 2, 0, []⟩ false [[10], [20]]) =
      (⟨commitDev ⟨[[], []], ⟨1, 1, 2, 0, []⟩, true⟩ ⟨5, 3, 2, 0, []⟩ false
          [[10], [20]], .Idle⟩, okOuts [[10], [20]]) ∧
    bootDispatch (commitDev ⟨[[], []], ⟨1, 1, 2, 0, []⟩, true⟩ ⟨5, 3, 2, 0, []⟩
        false [[10], [20]]) = .launch [[10], [20]] :=
  ⟨(valid_update_commits_and_boots ⟨[[], []], ⟨1, 1, 2, 0, []⟩, true⟩
      ⟨5, 3, 2, 0, []⟩ [[10], [20]] (by decide) (by decide)
      (by decide) (by decide)).1,
   (valid_update_commits_and_boots ⟨[[], []], ⟨1, 1, 2, 0, []⟩, true⟩
      ⟨5, 3, 2, 0, []⟩ [[10], [20]] (by decide) (by decide)
      (by decide) (by decide)).2.1⟩

/-- C6: a debug-flagged image bypasses the `min_version` gate — the
transaction commits with `OK` with no hypothesis relating the transmitted
`version` to the committed floor — and the committed `min_version` equals
its pre-transaction value: the floor is never raised by a debug build. -/
theorem debug_bypasses_gate_keeps_floor (d : Device) (tm : fw_meta_st)
    (cs : List (List Nat)) (hs : metaOk tm = true)
    (hn : cs.length = tm.chunks)
    (hsz : ∀ c ∈ cs, c.length ≤ FLASH_PAGESIZE) :
    runEvs ⟨d, .Idle⟩ (updateScript tm true cs) =
      (⟨commitDev d tm true cs, .Idle⟩, okOuts cs) ∧
    (commitDev d tm true cs).meta.min_ver = d.meta.min_ver := by
  refine ⟨runEvs_updateScript d tm true cs hs hn hsz
    (fun h => absurd h (by simp)), ?_⟩
  simp [commitDev, commitMeta]

/-- Witness for C6: a debug image with `version = 2` below the committed
floor `min_version = 5` still commits, and the floor stays 5. -/
theorem debug_bypasses_gate_keeps_floor_wit :
    runEvs ⟨⟨[[9]], ⟨5, 5, 1, 0, []⟩, true⟩, .Idle⟩
        (updateScript ⟨2, 7, 1, 0, []⟩ true [[10]]) =
      (⟨commitDev ⟨[[9]], ⟨5, 5, 1, 0, []⟩, true⟩ ⟨2, 7, 1, 0, []⟩ true [[10]],
        .Idle⟩, okOuts [[10]]) ∧
    (commitDev ⟨[[9]], ⟨5, 5, 1, 0, []⟩, true⟩ ⟨2, 7, 1, 0, []⟩ true
        [[10]]).meta.min_ver = 5 :=
  ⟨(debug_bypasses_gate_keeps_floor ⟨[[9]], ⟨5, 5, 1, 0, []⟩, true⟩
      ⟨2, 7, 1, 0, []⟩ [[10]] (by decide) (by decide) (by decide)).1,
   (debug_bypasses_gate_keeps_floor ⟨[[9]], ⟨5, 5, 1, 0, []⟩, true⟩
      ⟨2, 7, 1, 0, []⟩ [[10]] (by decide) (by decide) (by decide)).2⟩

/-- C9: repeating an identical successful `UPDATE` transaction is
idempotent: under exactly the conditions that make both runs succeed, each
run completes with the same `OK` response trace, and the device after the
second run equals the device after the first — same committed metadata,
same firmware code. -/
theorem successful_update_idempotent (d : Device) (tm : fw_meta_st)
    (dbg : Bool) (cs : List (List Nat)) (hs : metaOk tm = true)
    (hn : cs.length = tm.chunks)
    (hsz : ∀ c ∈ cs, c.length ≤ FLASH_PAGESIZE)
    (hv1 : dbg = false → d.meta.min_ver ≤ tm.ver)
    (hv2 : dbg = false → tm.min_ver ≤ tm.ver) :
    runEvs ⟨d, .Idle⟩ (updateScript tm dbg cs) =
      (⟨commitDev d tm dbg cs, .Idle⟩, okOuts cs) ∧
    runEvs ⟨commitDev d tm dbg cs, .Idle⟩ (updateScript tm dbg cs) =
      (⟨commitDev (commitDev d tm dbg cs) tm dbg cs, .Idle⟩, okOuts cs) ∧
    commitDev (commitDev d tm dbg cs) tm dbg cs = commitDev d tm dbg cs := by
  refine ⟨runEvs_updateScript d tm dbg cs hs hn hsz
      (fun h => by have := hv1 h; omega),
    runEvs_updateScript (commitDev d tm dbg cs) tm dbg cs hs hn hsz ?_, ?_⟩
  · intro h
    subst h
    have h2 : (commitDev d tm false cs).meta.min_ver = tm.min_ver := rfl
    rw [h2]
    have := hv2 rfl
    omega
  · cases dbg <;> simp [commitDev, commitMeta, List.drop_left]

/-- Witness for C9: running the same one-chunk update twice from a fresh
device gives identical committed state both times. -/
theorem successful_update_idempotent_wit :
    commitDev (commitDev ⟨[[9]], ⟨1, 1, 1, 0, []⟩, true⟩ ⟨4, 3, 1, 0, []⟩
        false [[10]]) ⟨4, 3, 1, 0, []⟩ false [[10]] =
      commitDev ⟨[[9]], ⟨1, 1, 1, 0, []⟩, true⟩ ⟨4, 3, 1, 0, []⟩ false [[10]] :=
  (successful_update_idempotent ⟨[[9]], ⟨1, 1, 1, 0, []⟩, true⟩
      ⟨4, 3, 1, 0, []⟩ false [[10]] (by decide) (by decide) (by decide)
      (fun _ => by decide) (fun _ => by decide)).2.2
